import Mathlib

/-!
Verification of the conversation-DAG normalizer and the cost tracker of the
soulprint-landing repository.

The normalizer (spec §4, tested by `processors/test_dag_parser.py`) turns a
branching conversation export into the linear sequence of visible messages on
the active path.  Its implementation file is not part of the source snapshot,
so the functions `extract_content`, `is_visible_message` and
`extract_active_path` below are modelled from the specification (and are
consistent with every test in `test_dag_parser.py`).

The cost tracker (`processors/cost_tracker.py`) is embedded directly from the
source; Python floats are modelled as rationals.
-/

namespace DagParser

/-- Modelled from the spec: a content part (§4.4) is either a plain string or
a structured value that may or may not carry a `text` field (a structured part
without `text`, e.g. an asset pointer, contributes nothing). -/
inductive Part where
  | str (s : String)
  | obj (text : Option String)
deriving DecidableEq, Repr

/-- Modelled from the spec: the polymorphic content shape (§4.4, §6):
absent/null, a bare string, or a structured value with an optional ordered
`parts` sequence and an optional direct `text` field (an empty object is
`.obj none none`). -/
inductive Content where
  | null
  | str (s : String)
  | obj (parts : Option (List Part)) (text : Option String)
deriving DecidableEq, Repr

/-- A metadata value: a boolean flag or anything else (spec §3: string keys to
arbitrary values, used to carry exceptional flags). -/
inductive MetaVal where
  | b (v : Bool)
  | other
deriving DecidableEq, Repr

/-- Modelled from the spec (§3): a message has an optional author role, a
content value, a numeric creation timestamp and a metadata mapping. -/
structure Message where
  author : Option String
  content : Content
  create_time : Int
  metadata : List (String × MetaVal)
deriving DecidableEq, Repr

/-- Modelled from the spec (§3): a node has an opaque id, zero-or-one parent
id, an ordered sequence of child ids, and zero-or-one attached message. -/
structure Node where
  id : String
  parent : Option String
  children : List String
  message : Option Message
deriving DecidableEq, Repr

/-- An output record `{role, content, create_time}` (spec §4.1, §6). -/
structure OutMessage where
  role : String
  content : String
  create_time : Int
deriving DecidableEq, Repr

/-- Modelled from the spec (§3): a conversation has an id, a title, an
optional node mapping (an insertion-ordered id-indexed map, modelled as an
association list), an optional `current_node` id, and an optional flat
pre-parsed `messages` sequence. -/
structure Conversation where
  id : String
  title : String
  mapping : Option (List (String × Node))
  current_node : Option String
  messages : Option (List OutMessage)
deriving DecidableEq, Repr

/-- Remove leading and trailing whitespace characters from a character list. -/
def stripChars (cs : List Char) : List Char :=
  ((cs.dropWhile Char.isWhitespace).reverse.dropWhile Char.isWhitespace).reverse

/-- Modelled from the spec (§4.4): trimming of leading/trailing whitespace
(Python `str.strip()`). -/
def strip (s : String) : String := ⟨stripChars s.data⟩

/-- The text contributed by one content part: a string part contributes
itself, a structured part contributes its `text` field when present and is
skipped otherwise (spec §4.4 case 3). -/
def partText : Part → Option String
  | .str s => some s
  | .obj t => t

/-- Modelled from the spec (§4.4): polymorphic content extraction.  Resolution
order: null → empty; bare string → returned as-is (no trimming); a `parts`
sequence → contributing parts joined with a newline and the result trimmed;
a direct `text` field with no `parts` → that text, trimmed; anything else →
empty string. -/
def extract_content : Content → String
  | .null => ""
  | .str s => s
  | .obj (some ps) _ => strip (String.intercalate "\n" (ps.filterMap partText))
  | .obj none (some t) => strip t
  | .obj none none => ""

/-- Truthiness of the metadata flag `is_user_system_message` (spec §4.3 rule 3,
key name from `test_system_message_with_user_flag_visible`). -/
def userSystemFlag (md : List (String × MetaVal)) : Bool :=
  match md.find? (fun p => p.1 == "is_user_system_message") with
  | some (_, .b v) => v
  | _ => false

/-- Modelled from the spec (§4.3): message visibility.  Rule, in order: no
author/role → hidden; `user` or `assistant` → visible; `system` with the
user-authored metadata flag set to true → visible; otherwise hidden. -/
def is_visible_message (msg : Message) : Bool :=
  match msg.author with
  | none => false
  | some role =>
    if role == "user" || role == "assistant" then true
    else if role == "system" && userSystemFlag msg.metadata then true
    else false

/-- Map a surviving message to its `{role, content, create_time}` record
(spec §4.2: `{role, content: ContentExtractor(content), create_time}`). -/
def toOut (msg : Message) : OutMessage :=
  { role := msg.author.getD ""
    content := extract_content msg.content
    create_time := msg.create_time }

/-- Drop message-less nodes, apply the visibility filter, and map each
surviving message to its output record (spec §4.2, final step of both
traversal algorithms). -/
def processNodes (nodes : List Node) : List OutMessage :=
  ((nodes.filterMap Node.message).filter is_visible_message).map toOut

/-- Look a node id up in the mapping (spec §9: traversal is by repeated map
lookup; the association list preserves the export's iteration order). -/
def lookupNode (m : List (String × Node)) (nid : String) : Option Node :=
  (m.find? (fun p => p.1 == nid)).map Prod.snd

/-- The parent link of a node (successor function of the upward walk). -/
def parentNext (n : Node) : Option String := n.parent

/-- The last child of a node (successor function of the fallback walk,
spec §4.2: last child = most recently created branch). -/
def lastChildNext (n : Node) : Option String := n.children.getLast?

/-- Fuel-bounded chain walk shared by both traversals: starting from a node
id, repeatedly look the node up and follow `next` until it yields none
(collecting every visited node); a dangling id truncates the walk at the last
valid node (spec §9 open-question policy). -/
def walkChain (m : List (String × Node)) (next : Node → Option String) :
    Nat → String → List Node
  | 0, _ => []
  | fuel + 1, nid =>
    match lookupNode m nid with
    | none => []
    | some n =>
      match next n with
      | none => [n]
      | some nxt => n :: walkChain m next fuel nxt

/-- Modelled from the spec (§4.2 fallback): the first node in iteration order
with no parent. -/
def findRoot (m : List (String × Node)) : Option (String × Node) :=
  m.find? (fun p => p.2.parent.isNone)

/-- Modelled from the spec (§4.2 fallback): locate a root and descend by
repeatedly taking the last child until a childless node is reached; the walk
is already root → tip, no reversal. -/
def fallbackPath (m : List (String × Node)) : List Node :=
  match findRoot m with
  | none => []
  | some (rid, _) => walkChain m lastChildNext (m.length + 1) rid

/-- Modelled from the spec (§4.2, §5): whether the diagnostic fallback warning
is emitted on the mapping-based path (an observational side effect only; it
never affects the returned value). -/
def fallbackWarning (m : List (String × Node)) (cur : Option String) : Bool :=
  match cur with
  | none => true
  | some nid => (lookupNode m nid).isNone

/-- Modelled from the spec (§4.2): the nodes on the active path.  A valid
`current_node` starts the primary upward walk, reversed to run root → tip;
a missing or invalid `current_node` uses the forward fallback walk. -/
def pathNodes (m : List (String × Node)) : Option String → List Node
  | some nid =>
    if (lookupNode m nid).isSome then
      (walkChain m parentNext (m.length + 1) nid).reverse
    else fallbackPath m
  | none => fallbackPath m

/-- Modelled from the spec (§4.1, §4.2): the normalizer entry point.  A
mapping dispatches to the traversal (primary backward walk from a valid
`current_node`, reversed; otherwise the forward fallback walk), followed by
filtering and extraction; a flat `messages` sequence with no mapping is an
identity passthrough; neither present yields the empty sequence. -/
def extract_active_path (conv : Conversation) : List OutMessage :=
  match conv.mapping, conv.messages with
  | some m, _ => processNodes (pathNodes m conv.current_node)
  | none, some msgs => msgs
  | none, none => []

/-- The per-position description of part extraction read off the spec's words
(§4.4 case 3): a string part contributes itself, a structured part with a
`text` field contributes that text, a structured part without one is skipped
silently, and order is preserved. -/
def partsTextSpec : List Part → List String
  | [] => []
  | .str s :: rest => s :: partsTextSpec rest
  | .obj (some t) :: rest => t :: partsTextSpec rest
  | .obj none :: rest => partsTextSpec rest

/-- The single-pass description of the shared post-processing step read off
the spec's words (§4.2): per node, drop it if its message is absent, drop it
if the message is not visible, otherwise map the message to its output
record; order is preserved. -/
def processNodesSpec (nodes : List Node) : List OutMessage :=
  nodes.filterMap fun nd =>
    match nd.message with
    | none => none
    | some msg => if is_visible_message msg then some (toOut msg) else none

/-- A single-text-part message as built by the test helper `_make_node`
(role, one content part, create_time, empty metadata). -/
def mkMsg (role txt : String) (t : Int) : Message :=
  ⟨some role, .obj (some [.str txt]) none, t, []⟩

/-- Test fixture (`test_branching_conversation_returns_active_branch`):
root node with no message. -/
def nodeRoot : Node := ⟨"node-root", none, ["node-user"], none⟩

/-- Test fixture: the user turn, with two children (an edit point). -/
def nodeUser : Node :=
  ⟨"node-user", some "node-root", ["node-v1", "node-v2"], some (mkMsg "user" "Hello" 1)⟩

/-- Test fixture: the abandoned first assistant response (dead branch). -/
def nodeV1 : Node :=
  ⟨"node-v1", some "node-user", [], some (mkMsg "assistant" "Old response" 2)⟩

/-- Test fixture: the regenerated assistant response (active branch). -/
def nodeV2 : Node :=
  ⟨"node-v2", some "node-user", ["node-followup"], some (mkMsg "assistant" "New response" 3)⟩

/-- Test fixture: the tip of the active branch. -/
def nodeFollowup : Node :=
  ⟨"node-followup", some "node-v2", [], some (mkMsg "user" "Thanks" 4)⟩

/-- Test fixture: the branching conversation's mapping. -/
def branchMapping : List (String × Node) :=
  [("node-root", nodeRoot), ("node-user", nodeUser), ("node-v1", nodeV1),
   ("node-v2", nodeV2), ("node-followup", nodeFollowup)]

/-- Test fixture: the branching conversation, tip at `node-followup`. -/
def branchConv : Conversation :=
  ⟨"conv-branch", "Branching Test", some branchMapping, some "node-followup", none⟩

/-- The parent chain of `branchConv`, tip to root. -/
def branchChain : List (String × Node) :=
  [("node-followup", nodeFollowup), ("node-v2", nodeV2),
   ("node-user", nodeUser), ("node-root", nodeRoot)]

/-- Test fixture (`test_missing_current_node_uses_fallback`): root node. -/
def fbRoot : Node := ⟨"node-root", none, ["node-1"], none⟩

/-- Test fixture: first fallback node. -/
def fbN1 : Node :=
  ⟨"node-1", some "node-root", ["node-2"], some (mkMsg "user" "Hello fallback" 1)⟩

/-- Test fixture: second fallback node. -/
def fbN2 : Node :=
  ⟨"node-2", some "node-1", [], some (mkMsg "assistant" "Fallback response" 2)⟩

/-- Test fixture: the fallback conversation's mapping. -/
def fbMapping : List (String × Node) :=
  [("node-root", fbRoot), ("node-1", fbN1), ("node-2", fbN2)]

/-- Test fixture: a conversation with no `current_node` field. -/
def fbConv : Conversation :=
  ⟨"conv-no-current", "No Current Node", some fbMapping, none, none⟩

/-- The last-child descent chain of `fbMapping`, root to tip. -/
def fbChain : List (String × Node) :=
  [("node-root", fbRoot), ("node-1", fbN1), ("node-2", fbN2)]

/-- Test fixture (`test_pre_parsed_format_passthrough`): flat messages. -/
def preMsgs : List OutMessage :=
  [⟨"user", "Hi", 1⟩, ⟨"assistant", "Hello!", 2⟩]

/-- Test fixture: a pre-parsed conversation (messages, no mapping). -/
def preConv : Conversation :=
  ⟨"conv-preparsed", "Pre-parsed", none, none, some preMsgs⟩

/-- Test fixture (`test_empty_mapping_returns_empty`): neither mapping nor
messages. -/
def emptyConv : Conversation := ⟨"conv-empty", "Empty", none, none, none⟩

/-- Fixture: a present but empty mapping. -/
def emptyMapConv : Conversation :=
  ⟨"conv-empty-map", "Empty Mapping", some [], some "node-x", none⟩

/-- Fixture: a single message-less node. -/
def loneNode : Node := ⟨"node-lone", none, [], none⟩

/-- Fixture: a single-node mapping whose only node has no message. -/
def loneConv : Conversation :=
  ⟨"conv-lone", "Lone", some [("node-lone", loneNode)], some "node-lone", none⟩

/-- Test fixture (`test_filters_tool_messages_from_active_path`): the active
path with a tool message in the middle. -/
def toolPathNodes : List Node :=
  [⟨"node-root", none, ["node-1"], none⟩,
   ⟨"node-1", some "node-root", ["node-2"], some (mkMsg "user" "Draw me a cat" 1)⟩,
   ⟨"node-2", some "node-1", ["node-3"], some (mkMsg "tool" "dalle generation result" 2)⟩,
   ⟨"node-3", some "node-2", [], some (mkMsg "assistant" "Here is your cat" 3)⟩]

/-- Declarative chain: `NodeChain m next nid L` holds when `L` is the exact
sequence of `(id, node)` pairs visited by starting at `nid`, looking each id
up in `m` and following `next` until it yields none, ending at a node with no
successor.  With `next = parentNext` this is the spec's upward walk from
`current_node` to a parentless node (§4.2 primary); with
`next = lastChildNext` it is the fallback descent to a childless node
(§4.2 fallback). -/
inductive NodeChain (m : List (String × Node)) (next : Node → Option String) :
    String → List (String × Node) → Prop
  | last {nid n} (hl : lookupNode m nid = some n) (hn : next n = none) :
      NodeChain m next nid [(nid, n)]
  | step {nid n nxt L} (hl : lookupNode m nid = some n) (hn : next n = some nxt)
      (hc : NodeChain m next nxt L) : NodeChain m next nid ((nid, n) :: L)

end DagParser

namespace Cost

/-- Token usage of one Anthropic API response (`response.usage`). -/
structure Usage where
  input_tokens : Nat
  output_tokens : Nat
deriving DecidableEq, Repr

/-- The mutable counters of `CostTracker.__init__` (cost_tracker.py). -/
structure CostTracker where
  llm_input_tokens : Nat
  llm_output_tokens : Nat
  llm_call_count : Nat
  embedding_input_tokens : Nat
  embedding_call_count : Nat
deriving DecidableEq, Repr

/-- `CostTracker.__init__`: all counters start at zero. -/
def initTracker : CostTracker := ⟨0, 0, 0, 0, 0⟩

/-- $1.00 per 1M input tokens (cost_tracker.py, Python float as a rational). -/
def HAIKU_INPUT_COST_PER_M : ℚ := 1

/-- $5.00 per 1M output tokens. -/
def HAIKU_OUTPUT_COST_PER_M : ℚ := 5

/-- $0.02 per 1M embedding input tokens. -/
def TITAN_EMBED_COST_PER_M : ℚ := 2 / 100

/-- `CostTracker.record_llm_call`: a response without a `usage` attribute is
ignored; otherwise the token counters accumulate and the call count rises. -/
def record_llm_call (t : CostTracker) (usage : Option Usage) : CostTracker :=
  match usage with
  | none => t
  | some u =>
    { t with
      llm_input_tokens := t.llm_input_tokens + u.input_tokens
      llm_output_tokens := t.llm_output_tokens + u.output_tokens
      llm_call_count := t.llm_call_count + 1 }

/-- `CostTracker.record_embedding`: tokens are estimated as
`text_length // 4` (floor division) and the call count rises by one. -/
def record_embedding (t : CostTracker) (text_length : Nat) : CostTracker :=
  { t with
    embedding_input_tokens := t.embedding_input_tokens + text_length / 4
    embedding_call_count := t.embedding_call_count + 1 }

/-- The dictionary returned by `CostTracker.get_summary`. -/
structure CostSummary where
  llm_input_tokens : Nat
  llm_output_tokens : Nat
  llm_call_count : Nat
  embedding_input_tokens : Nat
  embedding_call_count : Nat
  llm_cost_usd : ℚ
  embedding_cost_usd : ℚ
  total_cost_usd : ℚ
deriving DecidableEq, Repr

/-- `CostTracker.get_summary` (cost_tracker.py lines 47-74). -/
def get_summary (t : CostTracker) : CostSummary :=
  let llm_cost_usd : ℚ :=
    ((t.llm_input_tokens : ℚ) * HAIKU_INPUT_COST_PER_M +
      (t.llm_output_tokens : ℚ) * HAIKU_OUTPUT_COST_PER_M) / 1000000
  let embedding_cost_usd : ℚ :=
    ((t.embedding_input_tokens : ℚ) * TITAN_EMBED_COST_PER_M) / 1000000
  let total_cost_usd : ℚ := llm_cost_usd + embedding_cost_usd
  { llm_input_tokens := t.llm_input_tokens
    llm_output_tokens := t.llm_output_tokens
    llm_call_count := t.llm_call_count
    embedding_input_tokens := t.embedding_input_tokens
    embedding_call_count := t.embedding_call_count
    llm_cost_usd := llm_cost_usd
    embedding_cost_usd := embedding_cost_usd
    total_cost_usd := total_cost_usd }

/-- One recording operation on the tracker. -/
inductive CostOp where
  | llm (usage : Option Usage)
  | embed (text_length : Nat)

/-- Apply one operation to the tracker state. -/
def applyOp (t : CostTracker) : CostOp → CostTracker
  | .llm u => record_llm_call t u
  | .embed n => record_embedding t n

/-- The tracker state reached from a fresh tracker by a sequence of
operations. -/
def runOps (ops : List CostOp) : CostTracker := ops.foldl applyOp initTracker

end Cost

namespace DagParser

theorem NodeChain.head_eq {m next nid L} (h : NodeChain m next nid L) :
    ∃ n L2, lookupNode m nid = some n ∧ L = (nid, n) :: L2 := by
  cases h with
  | last hl hn => exact ⟨_, _, hl, rfl⟩
  | step hl hn hc => exact ⟨_, _, hl, rfl⟩

theorem NodeChain.det {m next nid L1} (h1 : NodeChain m next nid L1) :
    ∀ {L2}, NodeChain m next nid L2 → L1 = L2 := by
  induction h1 with
  | last hl hn =>
    intro L2 h2
    cases h2 with
    | last hl2 hn2 => rw [hl] at hl2; cases hl2; rfl
    | step hl2 hn2 hc2 => rw [hl] at hl2; cases hl2; rw [hn] at hn2; simp at hn2
  | step hl hn hc ih =>
    intro L2 h2
    cases h2 with
    | last hl2 hn2 => rw [hl] at hl2; cases hl2; rw [hn] at hn2; simp at hn2
    | step hl2 hn2 hc2 =>
      rw [hl] at hl2; cases hl2
      rw [hn] at hn2
      cases hn2
      rw [ih hc2]

theorem NodeChain.mem_chain {m next nid L} (h : NodeChain m next nid L) :
    ∀ e ∈ L, ∃ S, NodeChain m next e.1 S ∧ S <:+ L := by
  induction h with
  | last hl hn =>
    intro e he
    simp only [List.mem_singleton] at he
    subst he
    exact ⟨_, NodeChain.last hl hn, List.suffix_refl _⟩
  | step hl hn hc ih =>
    intro e he
    rcases List.mem_cons.mp he with he | he
    · subst he
      exact ⟨_, NodeChain.step hl hn hc, List.suffix_refl _⟩
    · obtain ⟨S, hS, hsuf⟩ := ih e he
      exact ⟨S, hS, hsuf.trans (List.suffix_cons _ _)⟩

theorem NodeChain.ids_nodup {m next nid L} (h : NodeChain m next nid L) :
    (L.map Prod.fst).Nodup := by
  induction h with
  | last hl hn => simp
  | step hl hn hc ih =>
    rename_i nid2 n nxt L2
    refine List.nodup_cons.mpr ⟨?_, ih⟩
    intro hmem
    obtain ⟨e, heL, he⟩ := List.mem_map.mp hmem
    obtain ⟨S, hS, hsuf⟩ := hc.mem_chain e heL
    rw [he] at hS
    have heq := hS.det (NodeChain.step hl hn hc)
    subst heq
    have := hsuf.length_le
    simp at this

theorem lookupNode_mem_keys {m nid n} (h : lookupNode m nid = some n) :
    nid ∈ m.map Prod.fst := by
  unfold lookupNode at h
  obtain ⟨pr, hfind, hsnd⟩ := Option.map_eq_some'.mp h
  have hpr : pr.1 = nid := by simpa using List.find?_some hfind
  exact List.mem_map.mpr ⟨pr, List.mem_of_find?_eq_some hfind, hpr⟩

theorem NodeChain.length_le {m next nid L} (h : NodeChain m next nid L) :
    L.length ≤ m.length := by
  have hsub : L.map Prod.fst ⊆ m.map Prod.fst := by
    intro x hx
    obtain ⟨e, heL, he⟩ := List.mem_map.mp hx
    obtain ⟨S, hS, _⟩ := h.mem_chain e heL
    obtain ⟨n, S2, hl, _⟩ := hS.head_eq
    rw [he] at hl
    exact lookupNode_mem_keys hl
  calc L.length = (L.map Prod.fst).length := (List.length_map _ _).symm
    _ ≤ (m.map Prod.fst).length := (List.subperm_of_subset h.ids_nodup hsub).length_le
    _ = m.length := List.length_map _ _

theorem walkChain_eq {m next nid L} (h : NodeChain m next nid L) :
    ∀ fuel, L.length ≤ fuel → walkChain m next fuel nid = L.map Prod.snd := by
  induction h with
  | last hl hn =>
    intro fuel hf
    cases fuel with
    | zero => simp at hf
    | succ f => simp [walkChain, hl, hn]
  | step hl hn hc ih =>
    intro fuel hf
    cases fuel with
    | zero => simp at hf
    | succ f =>
      rw [List.length_cons] at hf
      simp [walkChain, hl, hn, ih f (Nat.le_of_succ_le_succ hf)]

theorem filterMap_partText_eq_spec (ps : List Part) :
    ps.filterMap partText = partsTextSpec ps := by
  induction ps with
  | nil => rfl
  | cons p rest ih =>
    cases p with
    | str s => simp [partsTextSpec, partText, List.filterMap_cons, ih]
    | obj t =>
      cases t with
      | none => simp [partsTextSpec, partText, List.filterMap_cons, ih]
      | some u => simp [partsTextSpec, partText, List.filterMap_cons, ih]

theorem processNodes_eq_spec (nodes : List Node) :
    processNodes nodes = processNodesSpec nodes := by
  induction nodes with
  | nil => rfl
  | cons nd rest ih =>
    unfold processNodes processNodesSpec at ih ⊢
    cases hmsg : nd.message with
    | none => simp [List.filterMap_cons, hmsg, ih]
    | some msg =>
      by_cases hvis : is_visible_message msg
      · simp [List.filterMap_cons, List.filter_cons, hmsg, hvis, ih]
      · simp [List.filterMap_cons, List.filter_cons, hmsg, hvis, ih]

theorem processNodes_mem {nodes : List Node} {r : OutMessage}
    (h : r ∈ processNodes nodes) :
    ∃ nd ∈ nodes, ∃ msg, nd.message = some msg ∧
      is_visible_message msg = true ∧ r = toOut msg := by
  unfold processNodes at h
  obtain ⟨msg, hmsg, rfl⟩ := List.mem_map.mp h
  obtain ⟨hmem, hvis⟩ := List.mem_filter.mp hmsg
  obtain ⟨nd, hnd, hnmsg⟩ := List.mem_filterMap.mp hmem
  exact ⟨nd, hnd, msg, hnmsg, hvis, rfl⟩

theorem mem_processNodes {nodes : List Node} {nd : Node} {msg : Message}
    (hnd : nd ∈ nodes) (hmsg : nd.message = some msg)
    (hvis : is_visible_message msg = true) : toOut msg ∈ processNodes nodes := by
  unfold processNodes
  exact List.mem_map_of_mem _
    (List.mem_filter.mpr ⟨List.mem_filterMap.mpr ⟨nd, hnd, hmsg⟩, hvis⟩)

theorem processNodes_eq_nil {nodes : List Node}
    (h : ∀ nd ∈ nodes, nd.message = none) : processNodes nodes = [] := by
  unfold processNodes
  have hfm : nodes.filterMap Node.message = [] :=
    List.filterMap_eq_nil_iff.mpr fun nd hnd => h nd hnd
  simp [hfm]

/-- A message is visible exactly when it has a role that is `user` or
`assistant`, or the role `system` together with the user-authored metadata
flag set to true. -/
theorem is_visible_iff (msg : Message) :
    is_visible_message msg = true ↔
      ∃ r, msg.author = some r ∧
        (r = "user" ∨ r = "assistant" ∨
          (r = "system" ∧ userSystemFlag msg.metadata = true)) := by
  unfold is_visible_message
  cases hauthor : msg.author with
  | none => simp
  | some r =>
    simp only [Option.some.injEq]
    constructor
    · intro hv
      refine ⟨r, rfl, ?_⟩
      by_cases hu : r = "user"
      · exact Or.inl hu
      by_cases ha : r = "assistant"
      · exact Or.inr (Or.inl ha)
      by_cases hs : r = "system"
      · subst hs
        cases hflag : userSystemFlag msg.metadata with
        | true => exact Or.inr (Or.inr ⟨rfl, rfl⟩)
        | false => exact absurd hv (by simp [hu, ha, hflag])
      · exact absurd hv (by simp [hu, ha, hs])
    · rintro ⟨r2, hr2, hcase⟩
      cases hr2
      rcases hcase with h1 | h1 | ⟨h1, h2⟩
      · simp [h1]
      · simp [h1]
      · simp [h1, h2]

theorem extract_mapping_nodes {conv : Conversation} {m : List (String × Node)}
    (hm : conv.mapping = some m) :
    extract_active_path conv = processNodes (pathNodes m conv.current_node) := by
  obtain ⟨cid, ctitle, cmap, ccur, cmsgs⟩ := conv
  simp only at hm
  subst hm
  rfl

theorem extract_no_mapping_no_messages {conv : Conversation}
    (hm : conv.mapping = none) (hmsgs : conv.messages = none) :
    extract_active_path conv = [] := by
  obtain ⟨cid, ctitle, cmap, ccur, cmsgs⟩ := conv
  simp only at hm hmsgs
  subst hm
  subst hmsgs
  rfl

theorem extract_messages_passthrough {conv : Conversation}
    {msgs : List OutMessage} (hm : conv.mapping = none)
    (hmsgs : conv.messages = some msgs) :
    extract_active_path conv = msgs := by
  obtain ⟨cid, ctitle, cmap, ccur, cmsgs⟩ := conv
  simp only at hm hmsgs
  subst hm
  subst hmsgs
  rfl

theorem lookupNode_mem_entry {m : List (String × Node)} {nid : String}
    {n : Node} (h : lookupNode m nid = some n) : ∃ e ∈ m, e.2 = n := by
  unfold lookupNode at h
  obtain ⟨pr, hfind, hsnd⟩ := Option.map_eq_some'.mp h
  exact ⟨pr, List.mem_of_find?_eq_some hfind, hsnd⟩

theorem walkChain_mem {m : List (String × Node)} {next : Node → Option String} :
    ∀ {fuel : Nat} {start : String} {nd : Node},
      nd ∈ walkChain m next fuel start → ∃ e ∈ m, e.2 = nd := by
  intro fuel
  induction fuel with
  | zero => intro start nd h; simp [walkChain] at h
  | succ f ih =>
    intro start nd h
    cases hl : lookupNode m start with
    | none => simp [walkChain, hl] at h
    | some n =>
      cases hnx : next n with
      | none =>
        simp only [walkChain, hl, hnx, List.mem_singleton] at h
        subst h
        exact lookupNode_mem_entry hl
      | some nxt =>
        simp only [walkChain, hl, hnx, List.mem_cons] at h
        rcases h with rfl | h2
        · exact lookupNode_mem_entry hl
        · exact ih h2

theorem fallbackPath_mem {m : List (String × Node)} {nd : Node}
    (h : nd ∈ fallbackPath m) : ∃ e ∈ m, e.2 = nd := by
  unfold fallbackPath at h
  cases hr : findRoot m with
  | none => rw [hr] at h; simp at h
  | some root =>
    obtain ⟨rid, rn⟩ := root
    rw [hr] at h
    exact walkChain_mem h

theorem pathNodes_mem {m : List (String × Node)} {cur : Option String}
    {nd : Node} (h : nd ∈ pathNodes m cur) : ∃ e ∈ m, e.2 = nd := by
  cases cur with
  | none => exact fallbackPath_mem h
  | some nid =>
    replace h : nd ∈ (if (lookupNode m nid).isSome then
        (walkChain m parentNext (m.length + 1) nid).reverse
      else fallbackPath m) := h
    by_cases hl : (lookupNode m nid).isSome
    · rw [if_pos hl, List.mem_reverse] at h
      exact walkChain_mem h
    · rw [if_neg hl] at h
      exact fallbackPath_mem h

theorem branchChain_valid :
    NodeChain branchMapping parentNext "node-followup" branchChain :=
  .step rfl rfl (.step rfl rfl (.step rfl rfl (.last rfl rfl)))

theorem fbChain_valid : NodeChain fbMapping lastChildNext "node-root" fbChain :=
  .step rfl rfl (.step rfl rfl (.last rfl rfl))

/-- C1: for every conversation whose mapping contains `current_node` as a key
(witnessed by the parent chain `L` that runs from the `current_node` node up
to a parentless node), `extract_active_path` returns exactly the nodes of
that chain, reversed to run root → tip, filtered and extracted; and every
output record comes from a node on the chain, so no message on a sibling
branch ever appears, regardless of its create_time values. -/
theorem active_path_parent_chain_correct (conv : Conversation)
    (m : List (String × Node)) (cur : String) (L : List (String × Node))
    (hm : conv.mapping = some m) (hcur : conv.current_node = some cur)
    (hchain : NodeChain m parentNext cur L) :
    extract_active_path conv = processNodes ((L.map Prod.snd).reverse) ∧
    ∀ r ∈ extract_active_path conv, ∃ e ∈ L, ∃ msg,
      e.2.message = some msg ∧ is_visible_message msg = true ∧ r = toOut msg := by
  obtain ⟨n, L2, hl, _⟩ := hchain.head_eq
  have hif : pathNodes m (some cur) =
      (if (lookupNode m cur).isSome then
        (walkChain m parentNext (m.length + 1) cur).reverse
      else fallbackPath m) := rfl
  have hpath : pathNodes m (some cur) = (L.map Prod.snd).reverse := by
    rw [hif, if_pos (by rw [hl]; rfl),
      walkChain_eq hchain (m.length + 1) (Nat.le_succ_of_le hchain.length_le)]
  have hmain : extract_active_path conv = processNodes ((L.map Prod.snd).reverse) := by
    rw [extract_mapping_nodes hm, hcur, hpath]
  refine ⟨hmain, ?_⟩
  intro r hr
  rw [hmain] at hr
  obtain ⟨nd, hnd, msg, hmsg, hvis, hrec⟩ := processNodes_mem hr
  rw [List.mem_reverse] at hnd
  obtain ⟨e, heL, hesnd⟩ := List.mem_map.mp hnd
  exact ⟨e, heL, msg, by rw [hesnd]; exact hmsg, hvis, hrec⟩

/-- Witness for C1: the branching test fixture
(`test_branching_conversation_returns_active_branch`), whose active path is
root → user → v2 → followup and excludes the dead branch `node-v1`. -/
theorem active_path_parent_chain_witness :
    extract_active_path branchConv =
      processNodes ((branchChain.map Prod.snd).reverse) ∧
    ∀ r ∈ extract_active_path branchConv, ∃ e ∈ branchChain, ∃ msg,
      e.2.message = some msg ∧ is_visible_message msg = true ∧ r = toOut msg :=
  active_path_parent_chain_correct branchConv branchMapping "node-followup"
    branchChain rfl rfl branchChain_valid

/-- C2: a message is visible iff it has a role that is `user` or `assistant`,
or the role `system` together with the user-authored metadata flag set to
true; in every other case (no author, plain `system`, `tool`, unrecognized
role) it is not visible. -/
theorem is_visible_message_iff (msg : Message) :
    is_visible_message msg = true ↔
      ∃ r, msg.author = some r ∧
        (r = "user" ∨ r = "assistant" ∨
          (r = "system" ∧ userSystemFlag msg.metadata = true)) :=
  is_visible_iff msg

/-- C3: on a content value carrying a `parts` sequence, `extract_content`
contributes string parts as-is and structured parts' `text` fields, skips
structured parts without `text`, joins contributions with a newline in
original order, and trims the joined result; an empty `parts` sequence gives
the empty string, and the spec's concrete examples evaluate as stated. -/
theorem extract_content_parts_spec :
    (∀ (ps : List Part) (t : Option String),
      extract_content (.obj (some ps) t) =
        strip (String.intercalate "\n" (partsTextSpec ps))) ∧
    extract_content (.obj (some []) none) = "" ∧
    extract_content (.obj (some [.str "a", .str "b"]) none) = "a\nb" ∧
    extract_content (.obj (some [.str "a", .obj none, .obj (some "b")]) none) =
      "a\nb" ∧
    extract_content (.obj (some [.str "  a  "]) none) = "a" := by
  refine ⟨?_, by decide, by decide, by decide, by decide⟩
  intro ps t
  simp only [extract_content, filterMap_partText_eq_spec]

/-- C4: a conversation carrying a flat `messages` sequence and no `mapping`
is an identity passthrough: the very sequence stored in the conversation is
returned, with no filtering and no extraction applied to its records. -/
theorem preparsed_passthrough (conv : Conversation) (msgs : List OutMessage)
    (hm : conv.mapping = none) (hmsgs : conv.messages = some msgs) :
    extract_active_path conv = msgs :=
  extract_messages_passthrough hm hmsgs

/-- Witness for C4: the pre-parsed test fixture
(`test_pre_parsed_format_passthrough`). -/
theorem preparsed_passthrough_witness : extract_active_path preConv = preMsgs :=
  preparsed_passthrough preConv preMsgs rfl rfl

/-- C5: with a non-empty mapping and a missing or invalid `current_node`,
`extract_active_path` never fails: the diagnostic fallback warning is
emitted, the parentless root chosen deterministically by `findRoot` starts a
descent by last children (the chain `L`, root → tip, no reversal), the result
is that walk filtered and extracted as usual, and it is non-empty whenever
some node of the walk carries a visible message. -/
theorem fallback_traversal_correct (conv : Conversation)
    (m : List (String × Node)) (root : String × Node)
    (L : List (String × Node)) (hm : conv.mapping = some m)
    (hfb : conv.current_node = none ∨
      ∃ nid, conv.current_node = some nid ∧ lookupNode m nid = none)
    (hr : findRoot m = some root)
    (hchain : NodeChain m lastChildNext root.1 L) :
    fallbackWarning m conv.current_node = true ∧
    extract_active_path conv = processNodes (L.map Prod.snd) ∧
    ((∃ e ∈ L, ∃ msg, e.2.message = some msg ∧ is_visible_message msg = true) →
      extract_active_path conv ≠ []) := by
  obtain ⟨rid, rn⟩ := root
  have hfall : fallbackPath m = L.map Prod.snd := by
    have hstep : fallbackPath m = walkChain m lastChildNext (m.length + 1) rid := by
      unfold fallbackPath
      rw [hr]
    rw [hstep]
    exact walkChain_eq hchain (m.length + 1) (Nat.le_succ_of_le hchain.length_le)
  have hwarn : fallbackWarning m conv.current_node = true := by
    rcases hfb with hnone | ⟨nid, hsome, hlk⟩
    · rw [hnone]
      rfl
    · rw [hsome]
      simp [fallbackWarning, hlk]
  have hpath : pathNodes m conv.current_node = L.map Prod.snd := by
    rcases hfb with hnone | ⟨nid, hsome, hlk⟩
    · rw [hnone]
      exact hfall
    · have hif : pathNodes m (some nid) =
          (if (lookupNode m nid).isSome then
            (walkChain m parentNext (m.length + 1) nid).reverse
          else fallbackPath m) := rfl
      rw [hsome, hif, if_neg (by simp [hlk])]
      exact hfall
  have hmain : extract_active_path conv = processNodes (L.map Prod.snd) := by
    rw [extract_mapping_nodes hm, hpath]
  refine ⟨hwarn, hmain, ?_⟩
  rintro ⟨e, heL, msg, hmsg, hvis⟩
  rw [hmain]
  exact List.ne_nil_of_mem
    (mem_processNodes (List.mem_map_of_mem Prod.snd heL) hmsg hvis)

/-- Witness for C5: the fallback test fixture
(`test_missing_current_node_uses_fallback`), which has no `current_node`. -/
theorem fallback_traversal_witness :
    fallbackWarning fbMapping fbConv.current_node = true ∧
    extract_active_path fbConv = processNodes (fbChain.map Prod.snd) ∧
    ((∃ e ∈ fbChain, ∃ msg, e.2.message = some msg ∧
        is_visible_message msg = true) →
      extract_active_path fbConv ≠ []) :=
  fallback_traversal_correct fbConv fbMapping ("node-root", fbRoot) fbChain
    rfl (Or.inl rfl) rfl fbChain_valid

/-- C6: the shared post-processing of an active path drops nodes with no
message, drops messages failing the visibility filter (in particular every
record of the output has a non-`tool` role, so a `tool` message on the path
is removed), preserves the relative order of survivors, and maps each
survivor to its `{role, content, create_time}` record with extracted
content. -/
theorem path_filtering_spec :
    (∀ nodes : List Node, processNodes nodes = processNodesSpec nodes) ∧
    (∀ (nodes : List Node) (r : OutMessage), r ∈ processNodes nodes →
      r.role ≠ "tool" ∧ ∃ nd ∈ nodes, ∃ msg, nd.message = some msg ∧
        is_visible_message msg = true ∧ r = toOut msg) := by
  refine ⟨processNodes_eq_spec, ?_⟩
  intro nodes r hr
  obtain ⟨nd, hnd, msg, hmsg, hvis, hrec⟩ := processNodes_mem hr
  refine ⟨?_, nd, hnd, msg, hmsg, hvis, hrec⟩
  obtain ⟨rl, hauthor, hcase⟩ := (is_visible_iff msg).mp hvis
  rw [hrec]
  simp only [toOut, hauthor, Option.getD_some]
  rcases hcase with h1 | h1 | ⟨h1, _⟩ <;> subst h1 <;> decide

/-- Witness for C6: the tool-message test fixture
(`test_filters_tool_messages_from_active_path`). -/
theorem path_filtering_witness :
    (⟨"user", "Draw me a cat", 1⟩ : OutMessage).role ≠ "tool" ∧
    ∃ nd ∈ toolPathNodes, ∃ msg, nd.message = some msg ∧
      is_visible_message msg = true ∧
      (⟨"user", "Draw me a cat", 1⟩ : OutMessage) = toOut msg :=
  path_filtering_spec.2 toolPathNodes ⟨"user", "Draw me a cat", 1⟩ (by decide)

/-- C7: a conversation with neither mapping nor messages, a conversation with
an empty mapping, and a single-node mapping whose only node carries no
message all yield the empty sequence (and never an error). -/
theorem degenerate_inputs_empty :
    (∀ conv : Conversation, conv.mapping = none → conv.messages = none →
      extract_active_path conv = []) ∧
    (∀ conv : Conversation, conv.mapping = some [] →
      extract_active_path conv = []) ∧
    (∀ (conv : Conversation) (nid : String) (nd : Node),
      conv.mapping = some [(nid, nd)] → nd.message = none →
      extract_active_path conv = []) := by
  refine ⟨?_, ?_, ?_⟩
  · intro conv hm hmsgs
    exact extract_no_mapping_no_messages hm hmsgs
  · intro conv hm
    rw [extract_mapping_nodes hm]
    apply processNodes_eq_nil
    intro nd hnd
    obtain ⟨e, he, _⟩ := pathNodes_mem hnd
    simp at he
  · intro conv nid nd hm hmsg
    rw [extract_mapping_nodes hm]
    apply processNodes_eq_nil
    intro x hx
    obtain ⟨e, he, hsnd⟩ := pathNodes_mem hx
    simp only [List.mem_singleton] at he
    subst he
    rw [← hsnd]
    exact hmsg

/-- Witness for C7: the three degenerate fixtures evaluate to the empty
sequence. -/
theorem degenerate_inputs_witness :
    extract_active_path emptyConv = [] ∧
    extract_active_path emptyMapConv = [] ∧
    extract_active_path loneConv = [] :=
  ⟨degenerate_inputs_empty.1 emptyConv rfl rfl,
   degenerate_inputs_empty.2.1 emptyMapConv rfl,
   degenerate_inputs_empty.2.2 loneConv "node-lone" loneNode rfl rfl⟩

/-- C8: `extract_content` yields the empty string on null input, returns a
bare string exactly as-is without trimming, trims a direct `text` field when
no `parts` are present, and yields the empty string on a structured value of
no known shape. -/
theorem extract_content_shapes_spec :
    extract_content .null = "" ∧
    (∀ s, extract_content (.str s) = s) ∧
    (∀ s, extract_content (.obj none (some s)) = strip s) ∧
    extract_content (.obj none none) = "" ∧
    extract_content (.str "  x  ") = "  x  " ∧
    extract_content (.obj none (some "  x  ")) = "x" :=
  ⟨rfl, fun _ => rfl, fun _ => rfl, rfl, rfl, by decide⟩

/-- C9: `is_visible_message` and `extract_content` are total functions of the
embedded input types: on every message (any author, any metadata) the filter
returns a boolean, and on every content value the extractor returns some
plain string; neither can fail. -/
theorem extractor_filter_total :
    (∀ msg : Message,
      is_visible_message msg = true ∨ is_visible_message msg = false) ∧
    (∀ c : Content, ∃ s : String, extract_content c = s) :=
  ⟨fun msg => Bool.eq_false_or_eq_true (is_visible_message msg),
   fun c => ⟨extract_content c, rfl⟩⟩

end DagParser

namespace Cost

/-- C10: on every tracker state reachable by any sequence of
`record_llm_call` and `record_embedding` operations, `get_summary` reports
`llm_cost_usd = (llm_input_tokens * 1.00 + llm_output_tokens * 5.00) / 1e6`,
`embedding_cost_usd = embedding_input_tokens * 0.02 / 1e6`, and
`total_cost_usd` exactly their sum, while every counter is reported
unmodified; and `record_embedding n` adds exactly `n / 4` (floor division) to
`embedding_input_tokens` and 1 to `embedding_call_count`. -/
theorem cost_tracker_summary_correct (ops : List CostOp) :
    (get_summary (runOps ops)).llm_cost_usd =
      (((runOps ops).llm_input_tokens : ℚ) * 1 +
        ((runOps ops).llm_output_tokens : ℚ) * 5) / 1000000 ∧
    (get_summary (runOps ops)).embedding_cost_usd =
      ((runOps ops).embedding_input_tokens : ℚ) * (2 / 100) / 1000000 ∧
    (get_summary (runOps ops)).total_cost_usd =
      (get_summary (runOps ops)).llm_cost_usd +
        (get_summary (runOps ops)).embedding_cost_usd ∧
    (get_summary (runOps ops)).llm_input_tokens =
      (runOps ops).llm_input_tokens ∧
    (get_summary (runOps ops)).llm_output_tokens =
      (runOps ops).llm_output_tokens ∧
    (get_summary (runOps ops)).llm_call_count = (runOps ops).llm_call_count ∧
    (get_summary (runOps ops)).embedding_input_tokens =
      (runOps ops).embedding_input_tokens ∧
    (get_summary (runOps ops)).embedding_call_count =
      (runOps ops).embedding_call_count ∧
    ∀ n : Nat,
      (record_embedding (runOps ops) n).embedding_input_tokens =
        (runOps ops).embedding_input_tokens + n / 4 ∧
      (record_embedding (runOps ops) n).embedding_call_count =
        (runOps ops).embedding_call_count + 1 := by
  refine ⟨?_, ?_, rfl, rfl, rfl, rfl, rfl, rfl, fun n => ⟨rfl, rfl⟩⟩
  · simp [get_summary, HAIKU_INPUT_COST_PER_M, HAIKU_OUTPUT_COST_PER_M]
  · simp [get_summary, TITAN_EMBED_COST_PER_M]

end Cost

namespace DagParser

example : extract_active_path branchConv =
    [⟨"user", "Hello", 1⟩, ⟨"assistant", "New response", 3⟩,
     ⟨"user", "Thanks", 4⟩] := by decide

example : extract_active_path fbConv =
    [⟨"user", "Hello fallback", 1⟩, ⟨"assistant", "Fallback response", 2⟩] := by
  decide

example :
    extract_content (.obj (some [.str "Part one", .str "Part two"]) none) =
      "Part one\nPart two" := by decide

example : is_visible_message ⟨some "user", .null, 0, []⟩ = true := by decide

example : is_visible_message ⟨some "assistant", .null, 0, []⟩ = true := by
  decide

example : is_visible_message ⟨some "tool", .null, 0, []⟩ = false := by decide

example : is_visible_message ⟨some "system", .null, 0, []⟩ = false := by decide

example :
    is_visible_message
      ⟨some "system", .null, 0, [("is_user_system_message", .b true)]⟩ =
      true := by decide

example : is_visible_message ⟨some "browsing", .null, 0, []⟩ = false := by
  decide

example : is_visible_message ⟨none, .null, 0, []⟩ = false := by decide

example : extract_content (.obj (some [.obj (some "hello")]) none) = "hello" := by
  decide

example : extract_content (.obj none (some "hello")) = "hello" := by decide

example : extract_content .null = "" := by decide

example : extract_content (.str "hello direct") = "hello direct" := by decide

end DagParser
